import Mathlib

/-!
Verification of the FDE-Pipeline extract-and-load utility.

The Python sources are shallowly embedded here:
* `JSON_Extractor.py` (`JSONExtractor.load_to_landing`, `get_table_columns`)
* `CSV_Extractor.py` (`CSVExtractor.load_to_landing`, `camel_to_snake`)
* `S3_Extractor.py` (`PublicS3Extractor.extract_file`, `extract_all`)
* `API_Extractor.py` (`APIExtractor.extract_all`)
* `Main_Extractor.py` (`MainExtractor.extract_all`)

Python's dynamically typed runtime values (JSON payloads, dataframe cells,
database cell values) are modelled by one universal `Value` type.  Wall-clock
time (`datetime.now()`) is modelled by a tick counter threaded through the
loaders: each call to `now` yields the current tick.  Database effects are
modelled by explicit success flags (`DBEnv`) plus the destination table state.
-/

/-- Universal runtime value: JSON payloads, CSV cells and database cells. -/
inductive Value where
  | vnull : Value
  | vbool : Bool → Value
  | vint : Int → Value
  | vstr : String → Value
  | vtime : Nat → Value
  | vlist : List Value → Value
  | vdict : List (String × Value) → Value

/-- A destination table: catalog column names (ordinal order) and its rows.
A row is the (column, value) list produced by one insert. -/
structure Table where
  cols : List String
  rows : List (List (String × Value))

/-- Success flags for the database effects a load call performs.
`insertFails k` says whether the k-th `cursor.execute(INSERT ...)` of the call
raises; inserts additionally fail when they reference a column the destination
table does not have. -/
structure DBEnv where
  connOk : Bool
  catalogOk : Bool
  engineOk : Bool
  truncateOk : Bool
  appendOk : Bool
  commitOk : Bool
  insertFails : Nat → Bool

/-- Result of a load call: the returned boolean and the table rows after it. -/
structure LoadResult where
  ok : Bool
  rows : List (List (String × Value))

/-- Python truthiness of an optional string argument (None and "" are falsy). -/
def strTruthy : Option String → Bool
  | none => false
  | some s => !s.isEmpty

/-- Coercion at the top of `JSONExtractor.load_to_landing`:
`if not isinstance(json_data, list): json_data = [json_data]`. -/
def coerceRecords : Value → List Value
  | Value.vlist xs => xs
  | v => [v]

/-- Column list of the dynamic insert built by `JSONExtractor.load_to_landing`
(lines 36–57): `raw_data` always, then each metadata column under the code's
exact conditions, in the code's order. -/
def buildColumns (tc : List String) (file_name api_endpoint : Option String)
    (response_status : Option Int) : List String :=
  ["raw_data"]
    ++ (if "loaded_at" ∈ tc then ["loaded_at"] else [])
    ++ (if "file_name" ∈ tc ∧ strTruthy file_name then ["file_name"] else [])
    ++ (if "api_endpoint" ∈ tc ∧ strTruthy api_endpoint then ["api_endpoint"] else [])
    ++ (if "request_timestamp" ∈ tc then ["request_timestamp"] else [])
    ++ (if "response_status" ∈ tc ∧ response_status.isSome then ["response_status"] else [])

/-- Value list assembled per record (lines 70–85).  `loaded_at` calls
`datetime.now()` afresh (consuming a clock tick); `request_timestamp` reuses
the `request_time` captured before the loop.  Returns the values and the
advanced clock. -/
def buildValues (tc : List String) (file_name api_endpoint : Option String)
    (response_status : Option Int) (request_time : Nat) (record : Value)
    (clock : Nat) : List Value × Nat :=
  let seg2 := if "loaded_at" ∈ tc then [Value.vtime clock] else []
  let clock2 := if "loaded_at" ∈ tc then clock + 1 else clock
  let seg3 := if "file_name" ∈ tc ∧ strTruthy file_name
    then [Value.vstr (file_name.getD "")] else []
  let seg4 := if "api_endpoint" ∈ tc ∧ strTruthy api_endpoint
    then [Value.vstr (api_endpoint.getD "")] else []
  let seg5 := if "request_timestamp" ∈ tc then [Value.vtime request_time] else []
  let seg6 := if "response_status" ∈ tc ∧ response_status.isSome
    then [Value.vint (response_status.getD 0)] else []
  ([record] ++ seg2 ++ seg3 ++ seg4 ++ seg5 ++ seg6, clock2)

/-- Whether the k-th `cursor.execute(INSERT ...)` of the call succeeds: every
column named by the statement must exist on the destination table, and no
injected failure occurs. -/
def insertOk (env : DBEnv) (tableCols : List String) (cols : List String)
    (k : Nat) : Bool :=
  decide (∀ c ∈ cols, c ∈ tableCols) && !env.insertFails k

/-- Per-record insert loop of `JSONExtractor.load_to_landing` (lines 69–88):
assemble each record's values, execute the insert, advance the clock.  Returns
the new rows in insertion order, or `none` when some insert raises (the
surrounding `except` then rolls the whole batch back). -/
def insertLoop (env : DBEnv) (tableCols tc : List String) (cols : List String)
    (file_name api_endpoint : Option String) (response_status : Option Int)
    (request_time : Nat) :
    List Value → Nat → Nat → Option (List (List (String × Value)))
  | [], _, _ => some []
  | r :: rest, clock, k =>
    let vc := buildValues tc file_name api_endpoint response_status request_time r clock
    if insertOk env tableCols cols k then
      match insertLoop env tableCols tc cols file_name api_endpoint
          response_status request_time rest vc.2 (k + 1) with
      | some rows => some (cols.zip vc.1 :: rows)
      | none => none
    else none

/-- Embedding of `JSONExtractor.load_to_landing` (JSON_Extractor.py lines
19–101).  The clock is the `datetime.now()` tick counter at entry;
`request_time` consumes the first tick (line 67), each per-record `loaded_at`
capture consumes a further tick (line 73).  Any failure is caught by the
`except` (line 97), rolls back, and surfaces only as `ok := false`. -/
def jsonLoadToLanding (env : DBEnv) (t : Table) (clock : Nat) (json_data : Value)
    (file_name api_endpoint : Option String) (response_status : Option Int) :
    LoadResult :=
  let records := coerceRecords json_data
  if env.connOk then
    let tc := if env.catalogOk then t.cols else []
    let cols := buildColumns tc file_name api_endpoint response_status
    let request_time := clock
    match insertLoop env t.cols tc cols file_name api_endpoint response_status
        request_time records (clock + 1) 0 with
    | some newRows =>
      if env.commitOk then { ok := true, rows := t.rows ++ newRows }
      else { ok := false, rows := t.rows }
    | none => { ok := false, rows := t.rows }
  else { ok := false, rows := t.rows }

/-! ## Column-name normalization (`CSVExtractor.camel_to_snake`, lines 20–31)

The three `re.sub` passes are modelled as list-of-characters transformations:
`[\s\-]+ → _`, then `([a-z0-9])([A-Z]) → \1_\2`, then lowercasing followed by
`.strip('_')` and collapsing `_+ → _`. -/

/-- Characters matched by the pattern `[\s\-]`: ASCII whitespace or a dash. -/
def isSpaceDash (c : Char) : Bool :=
  c.toNat = 32 || c.toNat = 9 || c.toNat = 10 || c.toNat = 11 ||
    c.toNat = 12 || c.toNat = 13 || c.toNat = 45

/-- Characters matched by `[a-z0-9]`. -/
def isLowerDigit (c : Char) : Bool :=
  (97 ≤ c.toNat && c.toNat ≤ 122) || (48 ≤ c.toNat && c.toNat ≤ 57)

/-- Characters matched by `[A-Z]`. -/
def isUpperA (c : Char) : Bool :=
  65 ≤ c.toNat && c.toNat ≤ 90

/-- The pass `re.sub(r'[\s\-]+', '_', name)`: each maximal run of
whitespace/dash characters becomes one underscore.  The flag records whether
the previous character belonged to such a run. -/
def replaceSDAux : Bool → List Char → List Char
  | _, [] => []
  | prevSep, c :: rest =>
    if isSpaceDash c then
      if prevSep then replaceSDAux true rest
      else '_' :: replaceSDAux true rest
    else c :: replaceSDAux false rest

/-- First normalization pass (line 26). -/
def replaceSD (l : List Char) : List Char := replaceSDAux false l

/-- The pass `re.sub(r'([a-z0-9])([A-Z])', r'\1_\2', name)` (line 28), with
re.sub's non-overlapping semantics: scanning resumes after each match. -/
def insertU : List Char → List Char
  | [] => []
  | [c] => [c]
  | a :: b :: rest =>
    if isLowerDigit a && isUpperA b then a :: '_' :: b :: insertU rest
    else a :: insertU (b :: rest)

/-- One-sided `.strip('_')`: drop leading underscores. -/
def dropU (l : List Char) : List Char := l.dropWhile (fun c => c == '_')

/-- Python `.strip('_')`: drop leading and trailing underscores. -/
def stripU (l : List Char) : List Char := (dropU (dropU l).reverse).reverse

/-- The pass `re.sub(r'_+', '_', s)` (line 30): collapse underscore runs. -/
def squeezeU : List Char → List Char
  | [] => []
  | [c] => [c]
  | a :: b :: rest =>
    if a == '_' && b == '_' then squeezeU (b :: rest)
    else a :: squeezeU (b :: rest)

/-- The whole of `camel_to_snake` on a character list: the three passes in the
code's order (`.lower().strip('_')` happens before the `_+` collapse). -/
def camelToSnakeList (l : List Char) : List Char :=
  squeezeU (stripU (List.map Char.toLower (insertU (replaceSD l))))

/-- Embedding of `CSVExtractor.camel_to_snake`. -/
def camel_to_snake (s : String) : String := (camelToSnakeList s.toList).asString

/-- No whitespace/dash character occurs in the list. -/
def noSD (l : List Char) : Prop := ∀ c ∈ l, isSpaceDash c = false

/-- No ASCII capital occurs in the list. -/
def noUp (l : List Char) : Prop := ∀ c ∈ l, isUpperA c = false

/-- No two adjacent underscores occur in the list. -/
def noDoubleU (l : List Char) : Prop :=
  List.Chain' (fun a b => ¬(a = '_' ∧ b = '_')) l

/-! ## Tabular loader (`CSVExtractor.load_to_landing`, CSV_Extractor.py 33–107) -/

/-- A pandas DataFrame: named columns and rows of cells. -/
structure DataFrame where
  cols : List String
  rows : List (List Value)

/-- The conversion `df.to_dict('records')`: one record (dict) per row. -/
def toRecords (df : DataFrame) : List Value :=
  df.rows.map (fun r => Value.vdict (df.cols.zip r))

/-- Pandas column assignment `df[c] = v`: overwrite the column when it exists,
otherwise append it as the last column. -/
def dfAssign (df : DataFrame) (c : String) (v : Value) : DataFrame :=
  if c ∈ df.cols then
    { cols := df.cols,
      rows := df.rows.map (fun r =>
        (df.cols.zip r).map (fun p => if p.1 = c then v else p.2)) }
  else
    { cols := df.cols ++ [c], rows := df.rows.map (fun r => r ++ [v]) }

/-- Cell of a row under a column name (first occurrence). -/
def cellAt (cols : List String) (r : List Value) (c : String) : Value :=
  match (cols.zip r).find? (fun p => p.1 == c) with
  | some p => p.2
  | none => Value.vnull

/-- Pandas column selection `df[names]`. -/
def selectCols (df : DataFrame) (names : List String) : DataFrame :=
  { cols := names, rows := df.rows.map (fun r => names.map (cellAt df.cols r)) }

/-- Structured-mode dataframe after the metadata steps of
`CSVExtractor.load_to_landing` (lines 53–61): normalize every column name with
`camel_to_snake`, then assign a `loaded_at` column when the destination
declares it, then a `source_file` column when the destination declares it and
a truthy source file was supplied. -/
def structuredFrame (tc : List String) (df : DataFrame) (clock : Nat)
    (source_file : Option String) : DataFrame :=
  let df1 : DataFrame := { df with cols := df.cols.map camel_to_snake }
  let df2 := if "loaded_at" ∈ tc then dfAssign df1 "loaded_at" (Value.vtime clock) else df1
  if "source_file" ∈ tc ∧ strTruthy source_file
    then dfAssign df2 "source_file" (Value.vstr (source_file.getD "")) else df2

/-- The `matching_columns` filter of line 64: the structured frame's columns
that exist on the destination, in frame order. -/
def matchingColumns (tc : List String) (df : DataFrame) (clock : Nat)
    (source_file : Option String) : List String :=
  (structuredFrame tc df clock source_file).cols.filter (fun c => decide (c ∈ tc))

/-- Embedding of `CSVExtractor.load_to_landing` (lines 33–107).  The fetched
column list is empty when the connection or the catalog query fails
(`get_table_columns` swallows both).  Document mode (line 42) delegates to
`JSONExtractor.load_to_landing`; structured mode normalizes names, adds the
metadata columns the code adds, filters to matching columns, truncates, then
bulk-appends.  Truncate and append are separate operations: a failed append
leaves the destination already truncated. -/
def csvLoadToLanding (env : DBEnv) (t : Table) (clock : Nat) (df : DataFrame)
    (source_file : Option String) : LoadResult :=
  let tc := if env.connOk && env.catalogOk then t.cols else []
  if "raw_data" ∈ tc then
    jsonLoadToLanding env t clock (Value.vlist (toRecords df)) source_file none none
  else
    let matching := matchingColumns tc df clock source_file
    let dff := selectCols (structuredFrame tc df clock source_file) matching
    if env.engineOk then
      if env.connOk then
        if env.truncateOk then
          if env.appendOk then
            { ok := true, rows := dff.rows.map (fun r => matching.zip r) }
          else { ok := false, rows := [] }
        else { ok := false, rows := t.rows }
      else { ok := false, rows := t.rows }
    else { ok := false, rows := t.rows }

/-! ## Schema Inspector (`get_table_columns`, JSON_Extractor.py 103–140 and
identically CSV_Extractor.py 109–146) -/

/-- The destination store's metadata catalog as seen by `get_table_columns`:
connection and query success flags, plus the result rows of the
information-schema query for qualified and bare names (in ordinal order). -/
structure Catalog where
  connOk : Bool
  queryOk : Bool
  qualified : String → String → List String
  bare : String → List String

/-- Python `table_name.split('.', 1)` restricted to the first dot: `none` when
the name has no dot, otherwise the parts before and after the first dot. -/
def splitFirstDot : List Char → Option (List Char × List Char)
  | [] => none
  | c :: rest =>
    if c = '.' then some ([], rest)
    else match splitFirstDot rest with
      | some p => some (c :: p.1, p.2)
      | none => none

/-- Embedding of `get_table_columns`: the `except` turns a missing connection
or a failed catalog query into `[]`; otherwise the information-schema rows are
returned, choosing the qualified or bare query by presence of a dot. -/
def get_table_columns (cat : Catalog) (table_name : String) : List String :=
  if cat.connOk && cat.queryOk then
    match splitFirstDot table_name.toList with
    | some p => cat.qualified p.1.asString p.2.asString
    | none => cat.bare table_name
  else []

/-! ## Source fetchers and orchestrators -/

/-- File-format classification outcome in `PublicS3Extractor.extract_file`. -/
inductive S3Format where
  | jsonF
  | csvF
  deriving DecidableEq

/-- Python `endswith`: the last characters of `l` equal `sfx`. -/
def endsWithL (sfx l : List Char) : Bool :=
  decide (l.drop (l.length - sfx.length) = sfx)

/-- The classification in `extract_file` (S3_Extractor.py lines 62–76):
`file_key.lower().endswith('.json')`, then `.csv`, else unsupported. -/
def s3Classify (file_key : String) : Option S3Format :=
  let k := file_key.toList.map Char.toLower
  if endsWithL ".json".toList k then some S3Format.jsonF
  else if endsWithL ".csv".toList k then some S3Format.csvF
  else none

/-- Embedding of `PublicS3Extractor.extract_file` (lines 47–90).  `urlOk` is
whether `get_public_url` returned a URL, `httpOk` whether the download
succeeded; `jsonLoadOk`/`csvLoadOk` abstract the downstream extractor results
for the two formats. -/
def s3ExtractFile (urlOk httpOk jsonLoadOk csvLoadOk : Bool)
    (file_key : String) : Bool :=
  if !urlOk then false
  else if !httpOk then false
  else match s3Classify file_key with
    | some S3Format.jsonF => jsonLoadOk
    | some S3Format.csvF => csvLoadOk
    | none => false

/-- The counting loop shared verbatim by `APIExtractor.extract_all`
(API_Extractor.py 119–144) and `PublicS3Extractor.extract_all`
(S3_Extractor.py 92–117): process each mapping entry in order against the
world state `σ`, counting successes; no entry is skipped and no failure stops
the loop. -/
def extractAllLoop {σ : Type} (f : σ → String → String → Bool × σ) :
    List (String × String) → σ → Nat × σ
  | [], s => (0, s)
  | (k, tn) :: rest, s =>
    let r := f s k tn
    let res := extractAllLoop f rest r.2
    ((if r.1 then 1 else 0) + res.1, res.2)

/-- Embedding of the two config-driven `extract_all` methods: the return value
is `successful_extractions == total`. -/
def configExtractAll {σ : Type} (f : σ → String → String → Bool × σ)
    (entries : List (String × String)) (s : σ) : Bool × σ :=
  let r := extractAllLoop f entries s
  (r.1 == entries.length, r.2)

/-- The per-entry boolean outcomes, in mapping order, of running the entries
sequentially from state `s` (specification-side view of the same loop). -/
def runResults {σ : Type} (f : σ → String → String → Bool × σ) :
    List (String × String) → σ → List Bool
  | [], _ => []
  | (k, tn) :: rest, s => (f s k tn).1 :: runResults f rest (f s k tn).2

/-- Embedding of `MainExtractor.extract_all` (Main_Extractor.py 187–215):
run the S3 pipeline, then the API pipeline (unconditionally), and return the
conjunction of the two results. -/
def mainExtractAll {σ : Type} (s3 api : σ → Bool × σ) (s : σ) : Bool × σ :=
  let r1 := s3 s
  let r2 := api r1.2
  (r1.1 && r2.1, r2.2)

/-- Row lookup by column name, as the destination store would read the value
written for a column by one insert. -/
def rowLookup (c : String) (row : List (String × Value)) : Option Value :=
  (row.find? (fun p => p.1 == c)).map (fun p => p.2)

/-- An all-succeeding database environment, used as a concrete fixture. -/
def envOkAll : DBEnv :=
  { connOk := true, catalogOk := true, engineOk := true, truncateOk := true,
    appendOk := true, commitOk := true, insertFails := fun _ => false }

/-! ## Helper lemmas -/

/-- Membership in a conditional singleton. -/
theorem mem_ite_singleton {P : Prop} [Decidable P] {c x : String} :
    c ∈ (if P then [x] else ([] : List String)) ↔ P ∧ c = x := by
  split
  · simp_all
  · simp_all

/-- The insert loop yields one row per record. -/
theorem insertLoop_length (env : DBEnv) (tableCols tc cols : List String)
    (fn ae : Option String) (rs : Option Int) (rt : Nat) :
    ∀ (records : List Value) (clock k : Nat) rows,
      insertLoop env tableCols tc cols fn ae rs rt records clock k = some rows →
      rows.length = records.length := by
  intro records
  induction records with
  | nil =>
    intro clock k rows h
    simp only [insertLoop, Option.some.injEq] at h
    subst h; rfl
  | cons r rest ih =>
    intro clock k rows h
    simp only [insertLoop] at h
    split at h
    · split at h
      next rows2 hrec =>
        cases h
        simpa using ih _ _ rows2 hrec
      next => cases h
    · cases h

/-! ## Claim C2 -/

/-- C2: when the destination's fetched column set contains `raw_data`, the
tabular loader delegates the whole table, converted to one record per row, to
the document loader; its writes and success value are exactly those of calling
the document loader directly on that record sequence with the same source
identifier, and the structured-mode path is not executed. -/
theorem C2_document_mode_delegates (env : DBEnv) (t : Table) (clock : Nat)
    (df : DataFrame) (sf : Option String)
    (h1 : env.connOk = true) (h2 : env.catalogOk = true)
    (h3 : "raw_data" ∈ t.cols) :
    csvLoadToLanding env t clock df sf =
      jsonLoadToLanding env t clock (Value.vlist (toRecords df)) sf none none := by
  simp [csvLoadToLanding, h1, h2, h3]

/-- Witness for C2 at a concrete environment, table and dataframe. -/
theorem C2_witness :
    envOkAll.connOk = true ∧ envOkAll.catalogOk = true ∧
      "raw_data" ∈ ["raw_data", "loaded_at"] ∧
      csvLoadToLanding envOkAll ⟨["raw_data", "loaded_at"], []⟩ 0
        ⟨["a"], [[Value.vint 7]]⟩ (some "f.csv") =
      jsonLoadToLanding envOkAll ⟨["raw_data", "loaded_at"], []⟩ 0
        (Value.vlist (toRecords ⟨["a"], [[Value.vint 7]]⟩)) (some "f.csv") none none :=
  ⟨rfl, rfl, by decide,
    C2_document_mode_delegates envOkAll ⟨["raw_data", "loaded_at"], []⟩ 0
      ⟨["a"], [[Value.vint 7]]⟩ (some "f.csv") rfl rfl (by decide)⟩

/-! ## Claim C4 -/

/-- C4 counterexample: the destination declares `api_endpoint` but the call
supplies no endpoint argument; the claim requires the column in the insert's
column list regardless of arguments, yet the code omits it. -/
theorem C4_counterexample_api_endpoint_requires_argument :
    "api_endpoint" ∈ ["raw_data", "api_endpoint"] ∧
      "api_endpoint" ∉ buildColumns ["raw_data", "api_endpoint"] none none none := by
  decide

/-- C4 (amended): the insert's column list contains exactly `raw_data`;
`loaded_at` and `request_timestamp` iff the destination declares them; and
`file_name`, `api_endpoint`, `response_status` iff the destination declares
them and the corresponding argument was supplied (a truthy string for the two
string arguments, any non-None status).  A column absent from the destination
is never referenced. -/
theorem C4_amended_insert_columns (tc : List String)
    (fn ae : Option String) (rs : Option Int) (c : String) :
    c ∈ buildColumns tc fn ae rs ↔
      (c = "raw_data" ∨
        ("loaded_at" ∈ tc ∧ c = "loaded_at") ∨
        ("file_name" ∈ tc ∧ strTruthy fn = true ∧ c = "file_name") ∨
        ("api_endpoint" ∈ tc ∧ strTruthy ae = true ∧ c = "api_endpoint") ∨
        ("request_timestamp" ∈ tc ∧ c = "request_timestamp") ∨
        ("response_status" ∈ tc ∧ rs.isSome = true ∧ c = "response_status")) := by
  simp only [buildColumns, List.mem_append, List.mem_singleton, mem_ite_singleton]
  tauto

/-! ## Claim C7 -/

/-- Per-entry outcomes have one entry per mapping entry. -/
theorem runResults_length {σ : Type} (f : σ → String → String → Bool × σ) :
    ∀ (e : List (String × String)) (s : σ), (runResults f e s).length = e.length := by
  intro e
  induction e with
  | nil => intro s; rfl
  | cons p rest ih => intro s; cases p; simp [runResults, ih]

/-- The loop's success tally counts the `true` outcomes. -/
theorem extractAllLoop_count {σ : Type} (f : σ → String → String → Bool × σ) :
    ∀ (e : List (String × String)) (s : σ),
      (extractAllLoop f e s).1 = (runResults f e s).count true := by
  intro e
  induction e with
  | nil => intro s; rfl
  | cons p rest ih =>
    intro s
    cases p with
    | mk k tn =>
      simp only [extractAllLoop, runResults, List.count_cons, ih]
      cases h : (f s k tn).1 <;> simp [h, Nat.add_comm]

/-- The loop's final state results from folding every entry in order. -/
theorem extractAllLoop_state {σ : Type} (f : σ → String → String → Bool × σ) :
    ∀ (e : List (String × String)) (s : σ),
      (extractAllLoop f e s).2 = e.foldl (fun st p => (f st p.1 p.2).2) s := by
  intro e
  induction e with
  | nil => intro s; rfl
  | cons p rest ih => cases p; intro s; simp [extractAllLoop, ih]

/-- C7: each orchestrator `extract_all` processes every mapping entry in the
given order (the final world state is the fold of the per-entry pipeline over
the whole mapping — nothing is skipped and no failure stops the loop), and
returns `true` exactly when every entry's outcome was a success; the combined
orchestrator runs the object-storage mapping then the API mapping and succeeds
exactly when both do. -/
theorem C7_orchestrator_processes_all {σ : Type}
    (f : σ → String → String → Bool × σ) (e : List (String × String)) (s : σ) :
    (runResults f e s).length = e.length ∧
      (configExtractAll f e s).2 = e.foldl (fun st p => (f st p.1 p.2).2) s ∧
      ((configExtractAll f e s).1 = true ↔ ∀ b ∈ runResults f e s, b = true) ∧
      (∀ (g : σ → String → String → Bool × σ) (e2 : List (String × String)),
        (mainExtractAll (fun st => configExtractAll f e st)
            (fun st => configExtractAll g e2 st) s).1 = true ↔
          ((∀ b ∈ runResults f e s, b = true) ∧
            ∀ b ∈ runResults g e2 (configExtractAll f e s).2, b = true)) := by
  have key : ∀ (g : σ → String → String → Bool × σ) (e' : List (String × String)) (s' : σ),
      ((configExtractAll g e' s').1 = true ↔ ∀ b ∈ runResults g e' s', b = true) := by
    intro g e' s'
    simp only [configExtractAll, beq_iff_eq, extractAllLoop_count]
    rw [← runResults_length g e' s', List.count_eq_length]
    constructor
    · intro h b hb; exact (h b hb).symm
    · intro h b hb; exact (h b hb).symm
  refine ⟨runResults_length f e s, ?_, key f e s, ?_⟩
  · simp [configExtractAll, extractAllLoop_state]
  · intro g e2
    simp only [mainExtractAll, Bool.and_eq_true]
    rw [key f e s, key g e2 (configExtractAll f e s).2]

/-! ## Claim C9 -/

/-- A dot-free character list is not split. -/
theorem splitFirstDot_of_not_mem :
    ∀ (l : List Char), '.' ∉ l → splitFirstDot l = none := by
  intro l
  induction l with
  | nil => intro _; rfl
  | cons c rest ih =>
    intro h
    have hc : ¬(c = '.') := fun he => h (he ▸ List.mem_cons_self c rest)
    have hr : '.' ∉ rest := fun hm => h (List.mem_cons_of_mem c hm)
    simp [splitFirstDot, hc, ih hr]

/-- Splitting at the first dot of `l ++ '.' :: r` when `l` is dot-free. -/
theorem splitFirstDot_append :
    ∀ (l r : List Char), '.' ∉ l → splitFirstDot (l ++ '.' :: r) = some (l, r) := by
  intro l
  induction l with
  | nil => intro r _; simp [splitFirstDot]
  | cons c rest ih =>
    intro r h
    have hc : ¬(c = '.') := fun he => h (he ▸ List.mem_cons_self c rest)
    have hr : '.' ∉ rest := fun hm => h (List.mem_cons_of_mem c hm)
    simp [splitFirstDot, hc, ih r hr]

/-- C9: the schema inspector is total — a missing connection or a failed
catalog query yields the empty sequence, never an error; otherwise it returns
exactly the catalog's rows (in ordinal order), using the bare-name query for a
dot-free table name and the (schema, name) query after splitting a qualified
name at its first dot. -/
theorem C9_get_table_columns_total (cat : Catalog) :
    (∀ name : String, ¬(cat.connOk = true ∧ cat.queryOk = true) →
        get_table_columns cat name = []) ∧
      (∀ name : String, cat.connOk = true → cat.queryOk = true →
        '.' ∉ name.toList → get_table_columns cat name = cat.bare name) ∧
      (∀ s r : String, cat.connOk = true → cat.queryOk = true →
        '.' ∉ s.toList →
        get_table_columns cat (s ++ "." ++ r) = cat.qualified s r) := by
  refine ⟨?_, ?_, ?_⟩
  · intro name h
    have : (cat.connOk && cat.queryOk) = false := by
      cases hc : cat.connOk <;> cases hq : cat.queryOk <;> simp_all
    simp [get_table_columns, this]
  · intro name hc hq hdot
    have hsplit : splitFirstDot name.data = none :=
      splitFirstDot_of_not_mem name.toList hdot
    simp [get_table_columns, hc, hq, hsplit]
  · intro s r hc hq hdot
    have hsplit : splitFirstDot (s.data ++ '.' :: r.data) = some (s.toList, r.toList) :=
      splitFirstDot_append s.toList r.toList hdot
    simp only [get_table_columns, hc, hq, Bool.and_self, if_true, String.toList,
      String.data_append]
    rw [show (s.data ++ ".".data ++ r.data) = s.data ++ '.' :: r.data by
        rw [List.append_assoc]; rfl,
      hsplit]
    exact congrArg₂ cat.qualified (String.asString_toList s) (String.asString_toList r)

/-- Witness for C9 at concrete catalogs and names. -/
theorem C9_witness :
    (¬((false : Bool) = true ∧ (true : Bool) = true) ∧
        get_table_columns ⟨false, true, fun _ _ => ["x"], fun _ => ["y"]⟩ "t" = []) ∧
      ('.' ∉ "plain".toList ∧
        get_table_columns ⟨true, true, fun s tn => [s, tn], fun n => [n, n]⟩ "plain" =
          ["plain", "plain"]) ∧
      ('.' ∉ "sch".toList ∧
        get_table_columns ⟨true, true, fun s tn => [s, tn], fun n => [n, n]⟩
            ("sch" ++ "." ++ "a.b") = ["sch", "a.b"]) :=
  ⟨⟨by decide,
      (C9_get_table_columns_total ⟨false, true, fun _ _ => ["x"], fun _ => ["y"]⟩).1 "t"
        (by decide)⟩,
    ⟨by decide,
      (C9_get_table_columns_total ⟨true, true, fun s tn => [s, tn], fun n => [n, n]⟩).2.1
        "plain" rfl rfl (by decide)⟩,
    ⟨by decide,
      (C9_get_table_columns_total ⟨true, true, fun s tn => [s, tn], fun n => [n, n]⟩).2.2
        "sch" "a.b" rfl rfl (by decide)⟩⟩

/-! ## Claim C10 -/

/-- A list ending in a nonempty suffix ends in that suffix's last character. -/
theorem getLast_of_endsWith {l sfx : List Char} (hne : sfx ≠ [])
    (h : endsWithL sfx l = true) : l.getLast? = sfx.getLast? := by
  have hd : l.drop (l.length - sfx.length) = sfx := by
    simpa [endsWithL] using h
  have hsplit : l = l.take (l.length - sfx.length) ++ sfx := by
    conv_lhs => rw [← List.take_append_drop (l.length - sfx.length) l]
    rw [hd]
  rw [hsplit, List.getLast?_append]
  cases hx : sfx.getLast? with
  | none => exact absurd (List.getLast?_eq_none_iff.mp hx) hne
  | some v => simp

/-- A key cannot end in both `.csv` and `.json`. -/
theorem not_json_of_csv {l : List Char} (h : endsWithL ".csv".toList l = true) :
    endsWithL ".json".toList l = false := by
  by_contra hj
  rw [Bool.not_eq_false] at hj
  have h1 := getLast_of_endsWith (by decide) h
  have h2 := getLast_of_endsWith (by decide) hj
  rw [h1] at h2
  simp [String.toList] at h2

/-- C10: the object-storage fetcher classifies a file key by its lowercased
extension — a key whose lowercased form ends in `.json` is processed as JSON
(the call's result is the JSON pipeline's result), one ending in `.csv` is
processed as tabular data, and a key ending in neither is rejected with
`false` as an unsupported format. -/
theorem C10_extension_case_insensitive (file_key : String)
    (jsonLoadOk csvLoadOk : Bool) :
    (endsWithL ".json".toList (file_key.toList.map Char.toLower) = true →
        s3Classify file_key = some S3Format.jsonF ∧
          s3ExtractFile true true jsonLoadOk csvLoadOk file_key = jsonLoadOk) ∧
      (endsWithL ".csv".toList (file_key.toList.map Char.toLower) = true →
        s3Classify file_key = some S3Format.csvF ∧
          s3ExtractFile true true jsonLoadOk csvLoadOk file_key = csvLoadOk) ∧
      (endsWithL ".json".toList (file_key.toList.map Char.toLower) = false →
        endsWithL ".csv".toList (file_key.toList.map Char.toLower) = false →
        s3Classify file_key = none ∧
          s3ExtractFile true true jsonLoadOk csvLoadOk file_key = false) := by
  refine ⟨?_, ?_, ?_⟩
  · intro hj
    have hcls : s3Classify file_key = some S3Format.jsonF := by
      simp only [s3Classify]
      rw [hj]
      simp
    exact ⟨hcls, by simp [s3ExtractFile, hcls]⟩
  · intro hc
    have hj := not_json_of_csv hc
    have hcls : s3Classify file_key = some S3Format.csvF := by
      simp only [s3Classify]
      rw [hj, hc]
      simp
    exact ⟨hcls, by simp [s3ExtractFile, hcls]⟩
  · intro hj hc
    have hcls : s3Classify file_key = none := by
      simp only [s3Classify]
      rw [hj, hc]
      simp
    exact ⟨hcls, by simp [s3ExtractFile, hcls]⟩

/-- Witness for C10: `DATA.CSV` (uppercase extension) is processed as tabular,
`data.Json` as JSON, and `data.txt` is rejected. -/
theorem C10_witness :
    (endsWithL ".csv".toList ("DATA.CSV".toList.map Char.toLower) = true ∧
        s3ExtractFile true true false true "DATA.CSV" = true) ∧
      (endsWithL ".json".toList ("data.Json".toList.map Char.toLower) = true ∧
        s3ExtractFile true true true false "data.Json" = true) ∧
      (endsWithL ".json".toList ("data.txt".toList.map Char.toLower) = false ∧
        endsWithL ".csv".toList ("data.txt".toList.map Char.toLower) = false ∧
        s3ExtractFile true true true true "data.txt" = false) :=
  ⟨⟨by decide,
      ((C10_extension_case_insensitive "DATA.CSV" false true).2.1 (by decide)).2⟩,
    ⟨by decide,
      ((C10_extension_case_insensitive "data.Json" true false).1 (by decide)).2⟩,
    ⟨by decide, by decide,
      ((C10_extension_case_insensitive "data.txt" true true).2.2 (by decide)
        (by decide)).2⟩⟩

/-! ## Claims C5, C1, C3: the document loader's writes -/

/-- The (column, value) row one insert writes, decomposed into the segments
aligned by the shared conditions of `buildColumns` and `buildValues`. -/
theorem zip_build (tc : List String) (fn ae : Option String) (rs : Option Int)
    (rt : Nat) (r : Value) (clock : Nat) :
    (buildColumns tc fn ae rs).zip (buildValues tc fn ae rs rt r clock).1 =
      [("raw_data", r)]
        ++ (if "loaded_at" ∈ tc then [("loaded_at", Value.vtime clock)] else [])
        ++ (if "file_name" ∈ tc ∧ strTruthy fn
          then [("file_name", Value.vstr (fn.getD ""))] else [])
        ++ (if "api_endpoint" ∈ tc ∧ strTruthy ae
          then [("api_endpoint", Value.vstr (ae.getD ""))] else [])
        ++ (if "request_timestamp" ∈ tc
          then [("request_timestamp", Value.vtime rt)] else [])
        ++ (if "response_status" ∈ tc ∧ rs.isSome
          then [("response_status", Value.vint (rs.getD 0))] else []) := by
  simp only [buildColumns, buildValues]
  split_ifs <;> rfl

/-- Reading back the request-timestamp cell of one inserted row. -/
theorem rowLookup_request_timestamp (tc : List String) (fn ae : Option String)
    (rs : Option Int) (rt : Nat) (r : Value) (clock : Nat)
    (h : "request_timestamp" ∈ tc) :
    rowLookup "request_timestamp"
        ((buildColumns tc fn ae rs).zip (buildValues tc fn ae rs rt r clock).1) =
      some (Value.vtime rt) := by
  rw [zip_build]
  simp only [rowLookup]
  split_ifs <;> first | rfl | simp_all

/-- Every row produced by the insert loop carries the loop's single
`request_time` in its request-timestamp cell, when the destination declares
that column. -/
theorem insertLoop_request_timestamp (env : DBEnv) (tableCols tc : List String)
    (fn ae : Option String) (rs : Option Int) (rt : Nat)
    (h : "request_timestamp" ∈ tc) :
    ∀ (records : List Value) (clock k : Nat) rows,
      insertLoop env tableCols tc (buildColumns tc fn ae rs) fn ae rs rt
          records clock k = some rows →
      ∀ row ∈ rows, rowLookup "request_timestamp" row = some (Value.vtime rt) := by
  intro records
  induction records with
  | nil =>
    intro clock k rows hres
    simp only [insertLoop, Option.some.injEq] at hres
    subst hres
    intro row hrow
    exact absurd hrow (List.not_mem_nil row)
  | cons r rest ih =>
    intro clock k rows hres
    simp only [insertLoop] at hres
    split at hres
    · split at hres
      next rows2 hrec =>
        cases hres
        intro row hrow
        rcases List.mem_cons.mp hrow with hhead | htail
        · subst hhead
          exact rowLookup_request_timestamp tc fn ae rs rt r clock h
        · exact ih _ _ rows2 hrec row htail
      next => cases hres
    · cases hres

/-- C5: the document loader is all-or-nothing and total.  Either it returns
`true` and the destination afterwards holds its previous rows followed by one
new row per record of the call, or it returns `false` and the destination is
exactly as before (the failed batch is rolled back entirely); a missing
connection in particular surfaces as the return value `false`, never as an
exception (the embedding is a total function). -/
theorem C5_atomic_never_raises (env : DBEnv) (t : Table) (clock : Nat)
    (data : Value) (fn ae : Option String) (rs : Option Int) :
    ((jsonLoadToLanding env t clock data fn ae rs).ok = true ∧
        (jsonLoadToLanding env t clock data fn ae rs).rows.take t.rows.length = t.rows ∧
        (jsonLoadToLanding env t clock data fn ae rs).rows.length =
          t.rows.length + (coerceRecords data).length) ∨
      ((jsonLoadToLanding env t clock data fn ae rs).ok = false ∧
        (jsonLoadToLanding env t clock data fn ae rs).rows = t.rows) := by
  simp only [jsonLoadToLanding]
  cases hconn : env.connOk with
  | false => right; simp
  | true =>
    simp only [if_true]
    cases hres : insertLoop env t.cols (if env.catalogOk = true then t.cols else [])
        (buildColumns (if env.catalogOk = true then t.cols else []) fn ae rs)
        fn ae rs clock (coerceRecords data) (clock + 1) 0 with
    | none => right; simp
    | some newRows =>
      cases hcommit : env.commitOk with
      | false => right; simp
      | true =>
        left
        refine ⟨rfl, List.take_left t.rows newRows, ?_⟩
        simp [List.length_append,
          insertLoop_length env t.cols _ _ fn ae rs clock (coerceRecords data)
            (clock + 1) 0 newRows hres]

/-- C1 counterexample: one successful document-loader call with two records
against a destination declaring `loaded_at` writes two different `loaded_at`
values (tick 1 and tick 2), because the code calls `datetime.now()` per record
inside the loop — refuting the claim that every populated timestamp column
carries one identical per-call value. -/
theorem C1_counterexample_loaded_at_per_record :
    (jsonLoadToLanding envOkAll ⟨["raw_data", "loaded_at"], []⟩ 0
        (Value.vlist [Value.vint 1, Value.vint 2]) none none none).ok = true ∧
      (jsonLoadToLanding envOkAll ⟨["raw_data", "loaded_at"], []⟩ 0
          (Value.vlist [Value.vint 1, Value.vint 2]) none none none).rows.map
          (rowLookup "loaded_at") =
        [some (Value.vtime 1), some (Value.vtime 2)] ∧
      some (Value.vtime 1) ≠ some (Value.vtime 2) :=
  ⟨rfl, rfl, by simp⟩

/-- C1 (amended): only the `request_timestamp` column carries a per-call batch
timestamp: it is captured once (the call's first clock tick) and every row
inserted by a successful call holds that same value; `loaded_at`, by contrast,
is captured per record and generally differs between rows. -/
theorem C1_amended_request_timestamp_shared (env : DBEnv) (t : Table)
    (clock : Nat) (data : Value) (fn ae : Option String) (rs : Option Int)
    (hcat : env.catalogOk = true) (hreq : "request_timestamp" ∈ t.cols)
    (hok : (jsonLoadToLanding env t clock data fn ae rs).ok = true) :
    ∀ row ∈ (jsonLoadToLanding env t clock data fn ae rs).rows.drop t.rows.length,
      rowLookup "request_timestamp" row = some (Value.vtime clock) := by
  revert hok
  simp only [jsonLoadToLanding, hcat, if_true]
  cases hconn : env.connOk with
  | false => intro h; cases h
  | true =>
    simp only [if_true]
    cases hres : insertLoop env t.cols t.cols (buildColumns t.cols fn ae rs)
        fn ae rs clock (coerceRecords data) (clock + 1) 0 with
    | none => intro h; cases h
    | some newRows =>
      dsimp only
      by_cases hcommit : env.commitOk = true
      · rw [if_pos hcommit]
        intro _
        rw [List.drop_left]
        exact insertLoop_request_timestamp env t.cols t.cols fn ae rs clock hreq
          (coerceRecords data) (clock + 1) 0 newRows hres
      · rw [if_neg hcommit]
        intro h
        cases h

/-- Witness for the amended C1 at a concrete two-record call. -/
theorem C1_amended_witness :
    envOkAll.catalogOk = true ∧
      "request_timestamp" ∈ ["raw_data", "request_timestamp"] ∧
      (jsonLoadToLanding envOkAll ⟨["raw_data", "request_timestamp"], []⟩ 0
          (Value.vlist [Value.vint 1, Value.vint 2]) none none none).ok = true ∧
      ∀ row ∈ (jsonLoadToLanding envOkAll ⟨["raw_data", "request_timestamp"], []⟩ 0
          (Value.vlist [Value.vint 1, Value.vint 2]) none none none).rows.drop 0,
        rowLookup "request_timestamp" row = some (Value.vtime 0) :=
  ⟨rfl, by decide, rfl,
    C1_amended_request_timestamp_shared envOkAll
      ⟨["raw_data", "request_timestamp"], []⟩ 0
      (Value.vlist [Value.vint 1, Value.vint 2]) none none none rfl (by decide) rfl⟩

/-- C3 counterexample: a successful document-loader call against a destination
already holding one row leaves that row in place and appends the new record —
the pre-existing rows are not removed, refuting "every load truncates the
destination first". -/
theorem C3_counterexample_document_load_appends :
    (jsonLoadToLanding envOkAll ⟨["raw_data"], [[("raw_data", Value.vnull)]]⟩ 0
        (Value.vlist [Value.vint 1]) none none none).ok = true ∧
      (jsonLoadToLanding envOkAll ⟨["raw_data"], [[("raw_data", Value.vnull)]]⟩ 0
          (Value.vlist [Value.vint 1]) none none none).rows =
        [[("raw_data", Value.vnull)], [("raw_data", Value.vint 1)]] :=
  ⟨rfl, rfl⟩

/-- Pandas column assignment preserves the row count. -/
theorem dfAssign_rows_length (df : DataFrame) (c : String) (v : Value) :
    (dfAssign df c v).rows.length = df.rows.length := by
  simp only [dfAssign]
  split <;> simp

/-- C3 (amended): only the structured tabular path truncates the destination
before writing — its successful result is independent of the rows previously
present and holds exactly one row per input row; the document-loader path
appends, leaving every pre-existing row in place (its previous rows are a
prefix of the rows after a successful call). -/
theorem C3_amended_truncate_only_structured :
    (∀ (env : DBEnv) (t : Table) (clock : Nat) (data : Value)
        (fn ae : Option String) (rs : Option Int),
      (jsonLoadToLanding env t clock data fn ae rs).ok = true →
      (jsonLoadToLanding env t clock data fn ae rs).rows.take t.rows.length =
        t.rows) ∧
      (∀ (env : DBEnv) (cols : List String)
          (rows1 rows2 : List (List (String × Value))) (clock : Nat)
          (df : DataFrame) (sf : Option String), "raw_data" ∉ cols →
        (csvLoadToLanding env ⟨cols, rows1⟩ clock df sf).ok =
            (csvLoadToLanding env ⟨cols, rows2⟩ clock df sf).ok ∧
          ((csvLoadToLanding env ⟨cols, rows1⟩ clock df sf).ok = true →
            (csvLoadToLanding env ⟨cols, rows1⟩ clock df sf).rows =
                (csvLoadToLanding env ⟨cols, rows2⟩ clock df sf).rows ∧
              (csvLoadToLanding env ⟨cols, rows1⟩ clock df sf).rows.length =
                df.rows.length)) := by
  constructor
  · intro env t clock data fn ae rs
    simp only [jsonLoadToLanding]
    cases hconn : env.connOk with
    | false => intro h; cases h
    | true =>
      simp only [if_true]
      cases hres : insertLoop env t.cols (if env.catalogOk = true then t.cols else [])
          (buildColumns (if env.catalogOk = true then t.cols else []) fn ae rs)
          fn ae rs clock (coerceRecords data) (clock + 1) 0 with
      | none => intro h; cases h
      | some newRows =>
        cases hcommit : env.commitOk with
        | false => intro h; cases h
        | true => intro _; exact List.take_left t.rows newRows
  · intro env cols rows1 rows2 clock df sf hnot
    have hn : ¬("raw_data" ∈ (if (env.connOk && env.catalogOk) = true then cols else [])) := by
      cases (env.connOk && env.catalogOk) <;> simp [hnot]
    simp only [csvLoadToLanding, if_neg hn]
    cases hE : env.engineOk <;> cases hC : env.connOk <;> cases hT : env.truncateOk <;>
        cases hA : env.appendOk <;>
      simp [selectCols, structuredFrame, dfAssign_rows_length] <;>
      (try (split_ifs <;> simp [dfAssign_rows_length]))

/-- Witness for the amended C3: a concrete document load that keeps the
pre-existing row, and a concrete structured load whose result is the same
whether or not the destination previously held rows. -/
theorem C3_amended_witness :
    ((jsonLoadToLanding envOkAll ⟨["raw_data"], [[("raw_data", Value.vnull)]]⟩ 0
          (Value.vlist [Value.vint 1]) none none none).ok = true ∧
        (jsonLoadToLanding envOkAll ⟨["raw_data"], [[("raw_data", Value.vnull)]]⟩ 0
            (Value.vlist [Value.vint 1]) none none none).rows.take 1 =
          [[("raw_data", Value.vnull)]]) ∧
      ("raw_data" ∉ ["id"] ∧
        (csvLoadToLanding envOkAll ⟨["id"], [[("id", Value.vnull)]]⟩ 0
            ⟨["Id"], [[Value.vint 5]]⟩ none).rows =
          (csvLoadToLanding envOkAll ⟨["id"], []⟩ 0
            ⟨["Id"], [[Value.vint 5]]⟩ none).rows) :=
  ⟨⟨rfl,
      C3_amended_truncate_only_structured.1 envOkAll
        ⟨["raw_data"], [[("raw_data", Value.vnull)]]⟩ 0
        (Value.vlist [Value.vint 1]) none none none rfl⟩,
    ⟨by decide,
      ((C3_amended_truncate_only_structured.2 envOkAll ["id"]
            [[("id", Value.vnull)]] [] 0 ⟨["Id"], [[Value.vint 5]]⟩ none
            (by decide)).2 rfl).1⟩⟩

/-! ## Claim C6 -/

/-- Column membership after a pandas assignment. -/
theorem dfAssign_cols_mem (df : DataFrame) (c0 : String) (v : Value) (c : String) :
    c ∈ (dfAssign df c0 v).cols ↔ (c ∈ df.cols ∨ c = c0) := by
  simp only [dfAssign]
  split
  next h =>
    constructor
    · intro hm; exact Or.inl hm
    · rintro (hm | rfl)
      · exact hm
      · exact h
  next h => simp

/-- Column membership of the structured-mode frame. -/
theorem structuredFrame_cols_mem (tc : List String) (df : DataFrame)
    (clock : Nat) (sf : Option String) (c : String) :
    c ∈ (structuredFrame tc df clock sf).cols ↔
      (c ∈ df.cols.map camel_to_snake ∨
        ("loaded_at" ∈ tc ∧ c = "loaded_at") ∨
        (("source_file" ∈ tc ∧ strTruthy sf = true) ∧ c = "source_file")) := by
  simp only [structuredFrame]
  split_ifs with h1 h2 <;> simp only [dfAssign_cols_mem] <;> tauto

/-- Membership in the `matching_columns` list: a column is appended in
structured mode exactly when the destination declares it and it is either a
normalized source column, the load-timestamp column, or (when a source
identifier was supplied) the source-identifier column. -/
theorem matchingColumns_mem (tc : List String) (df : DataFrame) (clock : Nat)
    (sf : Option String) (c : String) :
    c ∈ matchingColumns tc df clock sf ↔
      (c ∈ tc ∧ (c ∈ df.cols.map camel_to_snake ∨ c = "loaded_at" ∨
        (c = "source_file" ∧ strTruthy sf = true))) := by
  simp only [matchingColumns, List.mem_filter, structuredFrame_cols_mem,
    decide_eq_true_eq]
  constructor
  · rintro ⟨hnorm | ⟨hdecl, rfl⟩ | ⟨⟨hdecl, htr⟩, rfl⟩, htc⟩
    · exact ⟨htc, Or.inl hnorm⟩
    · exact ⟨htc, Or.inr (Or.inl rfl)⟩
    · exact ⟨htc, Or.inr (Or.inr ⟨rfl, htr⟩)⟩
  · rintro ⟨htc, hnorm | rfl | ⟨rfl, htr⟩⟩
    · exact ⟨Or.inl hnorm, htc⟩
    · exact ⟨Or.inr (Or.inl ⟨htc, rfl⟩), htc⟩
    · exact ⟨Or.inr (Or.inr ⟨⟨htc, htr⟩, rfl⟩), htc⟩

/-- C6 counterexample: the destination declares `source_file` but the call
supplies no source identifier; a successful structured load appends only the
matched normalized column `id`, not `source_file` — refuting "a
source-identifier column added if and only if the destination declares it". -/
theorem C6_counterexample_source_identifier_requires_argument :
    "source_file" ∈ ["id", "source_file"] ∧
      (csvLoadToLanding envOkAll ⟨["id", "source_file"], []⟩ 0
          ⟨["Id"], [[Value.vint 5]]⟩ none).ok = true ∧
      (csvLoadToLanding envOkAll ⟨["id", "source_file"], []⟩ 0
          ⟨["Id"], [[Value.vint 5]]⟩ none).rows.map (List.map Prod.fst) =
        [["id"]] :=
  ⟨by decide, rfl, rfl⟩

/-- C6 (amended): in structured mode, a successful load appends exactly the
columns whose normalized source name matches a destination column, plus the
load-timestamp column iff the destination declares it, plus the
source-identifier column iff the destination declares it and a truthy source
identifier was supplied; unmatched source columns are silently dropped and
unmatched destination columns cause no error. -/
theorem C6_amended_structured_columns (env : DBEnv) (t : Table) (clock : Nat)
    (df : DataFrame) (sf : Option String)
    (hconn : env.connOk = true) (hcat : env.catalogOk = true)
    (hraw : "raw_data" ∉ t.cols)
    (hok : (csvLoadToLanding env t clock df sf).ok = true) :
    ∀ row ∈ (csvLoadToLanding env t clock df sf).rows, ∀ c : String,
      c ∈ row.map Prod.fst ↔
        (c ∈ t.cols ∧ (c ∈ df.cols.map camel_to_snake ∨ c = "loaded_at" ∨
          (c = "source_file" ∧ strTruthy sf = true))) := by
  revert hok
  have htc : (if (env.connOk && env.catalogOk) = true then t.cols else []) = t.cols := by
    simp [hconn, hcat]
  simp only [csvLoadToLanding, htc, if_neg hraw]
  by_cases hE : env.engineOk = true
  case neg => rw [if_neg hE]; intro h; cases h
  rw [if_pos hE]
  by_cases hC : env.connOk = true
  case neg => rw [if_neg hC]; intro h; cases h
  rw [if_pos hC]
  by_cases hT : env.truncateOk = true
  case neg => rw [if_neg hT]; intro h; cases h
  rw [if_pos hT]
  by_cases hA : env.appendOk = true
  case neg => rw [if_neg hA]; intro h; cases h
  rw [if_pos hA]
  intro _ row hrow c
  simp only [selectCols, List.mem_map] at hrow
  obtain ⟨r, hr, rfl⟩ := hrow
  obtain ⟨r0, _, rfl⟩ := hr
  rw [List.map_fst_zip _ _ (le_of_eq (List.length_map _ _).symm)]
  exact matchingColumns_mem t.cols df clock sf c

/-- Witness for the amended C6 at a concrete structured load. -/
theorem C6_amended_witness :
    envOkAll.connOk = true ∧ envOkAll.catalogOk = true ∧
      "raw_data" ∉ ["id", "source_file"] ∧
      (csvLoadToLanding envOkAll ⟨["id", "source_file"], []⟩ 0
          ⟨["Id"], [[Value.vint 5]]⟩ none).ok = true ∧
      ∀ row ∈ (csvLoadToLanding envOkAll ⟨["id", "source_file"], []⟩ 0
          ⟨["Id"], [[Value.vint 5]]⟩ none).rows, ∀ c : String,
        c ∈ row.map Prod.fst ↔
          (c ∈ ["id", "source_file"] ∧
            (c ∈ ["Id"].map camel_to_snake ∨ c = "loaded_at" ∨
              (c = "source_file" ∧ strTruthy none = true))) :=
  ⟨rfl, rfl, by decide, rfl,
    C6_amended_structured_columns envOkAll ⟨["id", "source_file"], []⟩ 0
      ⟨["Id"], [[Value.vint 5]]⟩ none rfl rfl (by decide) rfl⟩

/-! ## Claim C8: idempotence of `camel_to_snake` -/

/-- Characters below the surrogate range survive `Char.ofNat` unchanged. -/
theorem toNat_ofNat_small {n : Nat} (h : n < 55296) : (Char.ofNat n).toNat = n := by
  have hv : n.isValidChar := Or.inl h
  simp [Char.ofNat, dif_pos hv, Char.ofNatAux, Char.toNat, UInt32.toNat,
    BitVec.toNat_ofNatLt]

/-- Lowercasing an ASCII capital letter adds 32 to its code point. -/
theorem toLower_eq_of_upper {c : Char} (h : 65 ≤ c.toNat ∧ c.toNat ≤ 90) :
    (Char.toLower c).toNat = c.toNat + 32 := by
  have hof : Char.toLower c = Char.ofNat (c.toNat + 32) := by
    simp [Char.toLower, h]
  rw [hof, toNat_ofNat_small (by omega)]

/-- A lowercased character is never an ASCII capital. -/
theorem isUpperA_toLower (c : Char) : isUpperA (Char.toLower c) = false := by
  by_cases h : 65 ≤ c.toNat ∧ c.toNat ≤ 90
  · have := toLower_eq_of_upper h
    simp [isUpperA, this]
    omega
  · have heq : Char.toLower c = c := by simp [Char.toLower]; omega
    rw [heq]
    simp [isUpperA]
    omega

/-- Lowercasing cannot create a whitespace or dash character. -/
theorem isSpaceDash_toLower {c : Char} (h : isSpaceDash c = false) :
    isSpaceDash (Char.toLower c) = false := by
  by_cases hc : 65 ≤ c.toNat ∧ c.toNat ≤ 90
  · have := toLower_eq_of_upper hc
    simp [isSpaceDash, this]
    omega
  · have heq : Char.toLower c = c := by simp [Char.toLower]; omega
    rw [heq]; exact h

/-- Lowercasing fixes everything but ASCII capitals. -/
theorem toLower_eq_self {c : Char} (h : isUpperA c = false) : Char.toLower c = c := by
  simp [isUpperA] at h
  simp [Char.toLower]
  omega

/-- Characters of the first pass's output: underscores or kept source
characters, which are never whitespace/dash. -/
theorem mem_replaceSDAux :
    ∀ (p : Bool) (l : List Char) (c : Char), c ∈ replaceSDAux p l →
      c = '_' ∨ (c ∈ l ∧ isSpaceDash c = false) := by
  intro p l
  induction l generalizing p with
  | nil => intro c h; cases h
  | cons a rest ih =>
    intro c h
    simp only [replaceSDAux] at h
    by_cases ha : isSpaceDash a = true
    · rw [if_pos ha] at h
      cases p with
      | true =>
        rcases ih true c h with h1 | ⟨h2, h3⟩
        · exact Or.inl h1
        · exact Or.inr ⟨List.mem_cons_of_mem a h2, h3⟩
      | false =>
        rcases List.mem_cons.mp h with rfl | htail
        · exact Or.inl rfl
        · rcases ih true c htail with h1 | ⟨h2, h3⟩
          · exact Or.inl h1
          · exact Or.inr ⟨List.mem_cons_of_mem a h2, h3⟩
    · rw [if_neg ha] at h
      rcases List.mem_cons.mp h with rfl | htail
      · exact Or.inr ⟨List.mem_cons_self _ _, by simpa using ha⟩
      · rcases ih false c htail with h1 | ⟨h2, h3⟩
        · exact Or.inl h1
        · exact Or.inr ⟨List.mem_cons_of_mem a h2, h3⟩

/-- The first pass leaves no whitespace/dash character behind. -/
theorem noSD_replaceSD (l : List Char) : noSD (replaceSD l) := by
  intro c hc
  rcases mem_replaceSDAux false l c hc with rfl | ⟨_, h⟩
  · decide
  · exact h

/-- Characters of the second pass's output: underscores or source characters. -/
theorem mem_insertU : ∀ (l : List Char) (c : Char), c ∈ insertU l → c = '_' ∨ c ∈ l
  | [], c, h => absurd h (List.not_mem_nil c)
  | [a], c, h => by
    simp only [insertU] at h
    exact Or.inr h
  | a :: b :: rest, c, h => by
    simp only [insertU] at h
    split at h
    · rcases List.mem_cons.mp h with rfl | h1
      · exact Or.inr (List.mem_cons_self _ _)
      rcases List.mem_cons.mp h1 with rfl | h2
      · exact Or.inl rfl
      rcases List.mem_cons.mp h2 with rfl | h3
      · exact Or.inr (List.mem_cons_of_mem _ (List.mem_cons_self _ _))
      · rcases mem_insertU rest c h3 with h4 | h4
        · exact Or.inl h4
        · exact Or.inr (List.mem_cons_of_mem _ (List.mem_cons_of_mem _ h4))
    · rcases List.mem_cons.mp h with rfl | h1
      · exact Or.inr (List.mem_cons_self _ _)
      · rcases mem_insertU (b :: rest) c h1 with h2 | h2
        · exact Or.inl h2
        · exact Or.inr (List.mem_cons_of_mem _ h2)

/-- The collapse pass only keeps characters of its input. -/
theorem mem_squeezeU : ∀ (l : List Char) (c : Char), c ∈ squeezeU l → c ∈ l
  | [], _, h => h
  | [_], _, h => h
  | a :: b :: rest, c, h => by
    simp only [squeezeU] at h
    split at h
    · exact List.mem_cons_of_mem a (mem_squeezeU (b :: rest) c h)
    · rcases List.mem_cons.mp h with rfl | h1
      · exact List.mem_cons_self _ _
      · exact List.mem_cons_of_mem a (mem_squeezeU (b :: rest) c h1)

/-- Dropping leading underscores only keeps characters of the input. -/
theorem mem_dropU {l : List Char} {c : Char} (h : c ∈ dropU l) : c ∈ l := by
  have hsplit := List.takeWhile_append_dropWhile (fun c => c == '_') l
  rw [← hsplit]
  exact List.mem_append_right _ h

/-- Stripping underscores at both ends only keeps characters of the input. -/
theorem mem_stripU {l : List Char} {c : Char} (h : c ∈ stripU l) : c ∈ l := by
  simp only [stripU, List.mem_reverse] at h
  have h1 := mem_dropU h
  rw [List.mem_reverse] at h1
  exact mem_dropU h1

/-- The first pass is the identity on inputs with no whitespace/dash. -/
theorem replaceSDAux_id : ∀ (p : Bool) (l : List Char), noSD l → replaceSDAux p l = l := by
  intro p l
  induction l generalizing p with
  | nil => intro _; rfl
  | cons a rest ih =>
    intro h
    have ha : isSpaceDash a = false := h a (List.mem_cons_self _ _)
    have hr : noSD rest := fun c hc => h c (List.mem_cons_of_mem a hc)
    simp only [replaceSDAux, ha, Bool.false_eq_true, if_false]
    rw [ih false hr]

/-- The first pass is the identity on inputs with no whitespace/dash. -/
theorem replaceSD_id (l : List Char) (h : noSD l) : replaceSD l = l :=
  replaceSDAux_id false l h

/-- The second pass is the identity on inputs with no ASCII capital. -/
theorem insertU_id : ∀ (l : List Char), noUp l → insertU l = l
  | [] => fun _ => rfl
  | [_] => fun _ => rfl
  | a :: b :: rest => by
    intro h
    have hb : isUpperA b = false := h b (List.mem_cons_of_mem a (List.mem_cons_self _ _))
    have hr : noUp (b :: rest) := fun c hc => h c (List.mem_cons_of_mem a hc)
    simp only [insertU, hb, Bool.and_false, Bool.false_eq_true, if_false]
    rw [insertU_id (b :: rest) hr]

/-- Lowercasing is the identity on inputs with no ASCII capital. -/
theorem map_toLower_id : ∀ (l : List Char), noUp l → l.map Char.toLower = l
  | [] => fun _ => rfl
  | a :: rest => by
    intro h
    have ha : isUpperA a = false := h a (List.mem_cons_self _ _)
    have hr : noUp rest := fun c hc => h c (List.mem_cons_of_mem a hc)
    simp only [List.map_cons, toLower_eq_self ha]
    rw [map_toLower_id rest hr]

/-- Dropping leading underscores is the identity when the head is not one. -/
theorem dropU_id : ∀ (l : List Char), (∀ c, l.head? = some c → c ≠ '_') → dropU l = l
  | [] => fun _ => rfl
  | a :: rest => by
    intro h
    have ha : a ≠ '_' := h a rfl
    simp only [dropU, List.dropWhile_cons]
    simp [ha]

/-- Stripping is the identity when neither end is an underscore. -/
theorem stripU_id (l : List Char)
    (hh : ∀ c, l.head? = some c → c ≠ '_')
    (hl : ∀ c, l.getLast? = some c → c ≠ '_') : stripU l = l := by
  simp only [stripU]
  rw [show dropU l = l from dropU_id l hh]
  rw [show dropU l.reverse = l.reverse from
    dropU_id l.reverse (by intro c hc; rw [List.head?_reverse] at hc; exact hl c hc)]
  exact List.reverse_reverse l

/-- The collapse pass is the identity when no two underscores are adjacent. -/
theorem squeezeU_id : ∀ (l : List Char), noDoubleU l → squeezeU l = l
  | [] => fun _ => rfl
  | [_] => fun _ => rfl
  | a :: b :: rest => by
    intro h
    rw [noDoubleU, List.chain'_cons] at h
    have hcond : ¬((a == '_' && b == '_') = true) := by
      simp only [Bool.and_eq_true, beq_iff_eq]
      exact h.1
    simp only [squeezeU, if_neg hcond]
    rw [squeezeU_id (b :: rest) h.2]

/-- The collapse pass preserves the first character. -/
theorem squeezeU_head? : ∀ (l : List Char), (squeezeU l).head? = l.head?
  | [] => rfl
  | [_] => rfl
  | a :: b :: rest => by
    simp only [squeezeU]
    split
    · next hcond =>
      rw [squeezeU_head? (b :: rest)]
      simp only [Bool.and_eq_true, beq_iff_eq] at hcond
      simp [hcond.1, hcond.2]
    · simp

/-- The collapse pass preserves the last character. -/
theorem squeezeU_getLast? : ∀ (l : List Char), (squeezeU l).getLast? = l.getLast?
  | [] => rfl
  | [_] => rfl
  | a :: b :: rest => by
    simp only [squeezeU]
    split
    · rw [squeezeU_getLast? (b :: rest)]
      exact (List.getLast?_cons_cons).symm
    · obtain ⟨xs, hxs⟩ : ∃ xs, squeezeU (b :: rest) = b :: xs := by
        cases hsq : squeezeU (b :: rest) with
        | nil =>
          have hh := squeezeU_head? (b :: rest)
          rw [hsq] at hh
          simp at hh
        | cons x xs =>
          have hh := squeezeU_head? (b :: rest)
          rw [hsq] at hh
          simp only [List.head?_cons, Option.some.injEq] at hh
          subst hh
          exact ⟨xs, rfl⟩
      rw [hxs, List.getLast?_cons_cons, ← hxs, squeezeU_getLast? (b :: rest),
        List.getLast?_cons_cons]

/-- The collapse pass's output has no adjacent underscores. -/
theorem squeezeU_chain : ∀ (l : List Char), noDoubleU (squeezeU l)
  | [] => List.chain'_nil
  | [c] => List.chain'_singleton c
  | a :: b :: rest => by
    simp only [squeezeU]
    split
    · exact squeezeU_chain (b :: rest)
    · next hcond =>
      rw [noDoubleU, List.chain'_cons']
      refine ⟨?_, squeezeU_chain (b :: rest)⟩
      intro y hy
      rw [squeezeU_head? (b :: rest)] at hy
      simp only [List.head?_cons, Option.mem_def, Option.some.injEq] at hy
      subst hy
      simp only [Bool.and_eq_true, beq_iff_eq] at hcond
      exact fun hab => hcond ⟨hab.1, hab.2⟩

/-- The head surviving `dropWhile` fails the predicate. -/
theorem dropWhile_head_not {p : Char → Bool} :
    ∀ (l : List Char) (c : Char), (l.dropWhile p).head? = some c → p c = false := by
  intro l
  induction l with
  | nil => intro c h; cases h
  | cons a rest ih =>
    intro c h
    rw [List.dropWhile_cons] at h
    split at h
    · exact ih c h
    · next hp =>
      simp only [List.head?_cons, Option.some.injEq] at h
      subst h
      simpa using hp

/-- A nonempty `dropWhile` result ends where the input ends. -/
theorem dropWhile_getLast? {p : Char → Bool} {l : List Char} {c : Char}
    (h : (l.dropWhile p).getLast? = some c) : l.getLast? = some c := by
  have hsplit := List.takeWhile_append_dropWhile p l
  rw [← hsplit, List.getLast?_append, h]
  rfl

/-- The stripped list does not start with an underscore. -/
theorem stripU_head {l : List Char} {c : Char}
    (h : (stripU l).head? = some c) : c ≠ '_' := by
  simp only [stripU, List.head?_reverse] at h
  have h1 := dropWhile_getLast? h
  rw [List.getLast?_reverse] at h1
  have := dropWhile_head_not l c h1
  simpa using this

/-- The stripped list does not end with an underscore. -/
theorem stripU_getLast {l : List Char} {c : Char}
    (h : (stripU l).getLast? = some c) : c ≠ '_' := by
  simp only [stripU, List.getLast?_reverse] at h
  have := dropWhile_head_not _ c h
  simpa using this

/-- A normalized name contains no whitespace or dash. -/
theorem camelToSnakeList_noSD (l : List Char) : noSD (camelToSnakeList l) := by
  intro c hc
  simp only [camelToSnakeList] at hc
  have h1 := mem_squeezeU _ c hc
  have h2 := mem_stripU h1
  rw [List.mem_map] at h2
  obtain ⟨d, hd, rfl⟩ := h2
  rcases mem_insertU _ d hd with rfl | h4
  · exact isSpaceDash_toLower (by decide)
  · exact isSpaceDash_toLower (noSD_replaceSD l d h4)

/-- A normalized name contains no ASCII capital. -/
theorem camelToSnakeList_noUp (l : List Char) : noUp (camelToSnakeList l) := by
  intro c hc
  simp only [camelToSnakeList] at hc
  have h1 := mem_squeezeU _ c hc
  have h2 := mem_stripU h1
  rw [List.mem_map] at h2
  obtain ⟨d, _, rfl⟩ := h2
  exact isUpperA_toLower d

/-- A normalized name does not start with an underscore. -/
theorem camelToSnakeList_head (l : List Char) :
    ∀ c, (camelToSnakeList l).head? = some c → c ≠ '_' := by
  intro c h
  simp only [camelToSnakeList, squeezeU_head?] at h
  exact stripU_head h

/-- A normalized name does not end with an underscore. -/
theorem camelToSnakeList_getLast (l : List Char) :
    ∀ c, (camelToSnakeList l).getLast? = some c → c ≠ '_' := by
  intro c h
  simp only [camelToSnakeList, squeezeU_getLast?] at h
  exact stripU_getLast h

/-- A normalized name has no adjacent underscores. -/
theorem camelToSnakeList_noDouble (l : List Char) : noDoubleU (camelToSnakeList l) := by
  show noDoubleU (squeezeU (stripU (List.map Char.toLower (insertU (replaceSD l)))))
  exact squeezeU_chain _

/-- Normalization is idempotent at the character-list level. -/
theorem camelToSnakeList_idem (l : List Char) :
    camelToSnakeList (camelToSnakeList l) = camelToSnakeList l := by
  show squeezeU (stripU (List.map Char.toLower (insertU (replaceSD (camelToSnakeList l))))) =
    camelToSnakeList l
  rw [replaceSD_id _ (camelToSnakeList_noSD l),
    insertU_id _ (camelToSnakeList_noUp l),
    map_toLower_id _ (camelToSnakeList_noUp l),
    stripU_id _ (camelToSnakeList_head l) (camelToSnakeList_getLast l),
    squeezeU_id _ (camelToSnakeList_noDouble l)]

/-- C8: `camel_to_snake` is idempotent — normalizing an already-normalized
column name returns it unchanged, for every input string. -/
theorem C8_camel_to_snake_idempotent (s : String) :
    camel_to_snake (camel_to_snake s) = camel_to_snake s := by
  simp only [camel_to_snake, List.toList_asString]
  rw [camelToSnakeList_idem]
